import Mathlib

/-!
Shallow embedding of the core of the `ccui` terminal-UI library
(`src/style.rs`, `src/internal/mod.rs`, `src/internal/render.rs`,
`src/event.rs`), together with theorems settling the specification
claims about the layout engine, the node tree, and the event
dispatcher.

Machine integers: all Rust fields involved are `u16` (terminal cells).
They are modelled as `Nat`, and every `u16` arithmetic operation of the
source is reproduced with its release-mode wrapping semantics, written
as an explicit `% 65536` (`w16`).  `saturating_sub` is Nat truncated
subtraction, `saturating_add` is `min (a + b) 65535`.  The one place the
source can panic — the `u16` division in `calculate_children_areas` when
the `usize → u16` cast of the child count is zero, i.e. `n` a positive
multiple of 65536 — is modelled by Nat division (which yields 0 there);
every theorem below stays in the region `n ≤ 65535` where the two agree.

Geometry (`ratatui::layout::Rect`) follows ratatui ≥ 0.26: `Rect::new`
stores its arguments unchanged, and `Rect::contains` compares against
`x.saturating_add(width)` / `y.saturating_add(height)`.
-/

namespace Ccui

/-- Wrapping `u16` arithmetic: the value of a Rust release-mode `u16`
operation result. -/
def w16 (a : Nat) : Nat := a % 65536

/-- Saturating `u16` addition, as in `u16::saturating_add`. -/
def sat16 (a b : Nat) : Nat := min (a + b) 65535

/-- Screen rectangle, from `ratatui::layout::Rect` (fields `x`, `y`,
`width`, `height`, all `u16`). -/
structure Rect where
  x : Nat
  y : Nat
  width : Nat
  height : Nat
  deriving Repr, DecidableEq

/-- Construction `Rect::new(x, y, width, height)` (ratatui ≥ 0.26 stores
the arguments unchanged). -/
def Rect.new (x y width height : Nat) : Rect := ⟨x, y, width, height⟩

/-- Default rectangle `Rect::default()`: all fields zero. -/
def Rect.default : Rect := ⟨0, 0, 0, 0⟩

/-- Point membership `Rect::contains((px, py))`: the right and bottom
edges are computed with `u16::saturating_add`. -/
def Rect.containsPt (r : Rect) (px py : Nat) : Bool :=
  r.x ≤ px && px < sat16 r.x r.width && r.y ≤ py && py < sat16 r.y r.height

/-- Well-formed rectangle: every field fits in a `u16`, the invariant a
real `ratatui::layout::Rect` always satisfies. -/
def Rect.WF (r : Rect) : Prop :=
  r.x < 65536 ∧ r.y < 65536 ∧ r.width < 65536 ∧ r.height < 65536

instance (r : Rect) : Decidable r.WF := by
  unfold Rect.WF; infer_instance

/-- Layout mode, from `enum Display` in `src/style.rs`. -/
inductive Display where
  | tiled : Display
  | floating (x y : Nat) : Display
  deriving Repr, DecidableEq

/-- Flex direction, from `enum FlexDirection` in `src/style.rs`. -/
inductive FlexDirection where
  | row : FlexDirection
  | column : FlexDirection
  deriving Repr, DecidableEq

/-- Dimension unit, from `enum Dimension` in `src/style.rs`. -/
inductive Dimension where
  | auto : Dimension
  | fixed (v : Nat) : Dimension
  | percent (p : Nat) : Dimension
  deriving Repr, DecidableEq

/-- Spacing offset, from `struct RectOffset` in `src/style.rs`. -/
structure RectOffset where
  top : Nat
  right : Nat
  bottom : Nat
  left : Nat
  deriving Repr, DecidableEq

/-- Constructor `RectOffset::default()`: all sides zero. -/
def RectOffset.default : RectOffset := ⟨0, 0, 0, 0⟩

/-- Style properties, from `struct Style` in `src/style.rs` (lines
56–65).  The fields are exactly those of the source: `display`,
`flex_direction`, `width`, `height`, `gap`, `padding`, `margin`.
There is no border field of any kind. -/
structure Style where
  display : Display
  flex_direction : FlexDirection
  width : Dimension
  height : Dimension
  gap : Nat
  padding : RectOffset
  margin : RectOffset
  deriving Repr, DecidableEq

/-- Constructor `Style::default()` from `src/style.rs`. -/
def Style.default : Style :=
  ⟨Display.tiled, FlexDirection.column, Dimension.auto, Dimension.auto,
   0, RectOffset.default, RectOffset.default⟩

/-- Builder `Style::new()` (same as default). -/
def Style.new : Style := Style.default

/-- Builder `Style::row()`. -/
def Style.row (s : Style) : Style := { s with flex_direction := FlexDirection.row }

/-- Builder `Style::column()`. -/
def Style.column (s : Style) : Style := { s with flex_direction := FlexDirection.column }

/-- Well-formed style: every `u16` field fits in a `u16`. -/
def Style.WF (s : Style) : Prop :=
  s.gap < 65536 ∧ s.padding.top < 65536 ∧ s.padding.right < 65536 ∧
    s.padding.bottom < 65536 ∧ s.padding.left < 65536

instance (s : Style) : Decidable s.WF := by
  unfold Style.WF; infer_instance

/-- Method `Style::calculate_area` from `src/style.rs` lines 164–199.
In the `Tiled` branch the Rust code reads `Dimension::Fixed(w) =>
w.min(w)` where the pattern variable shadows the margin-shrunk width, so
the fixed size is taken unclamped; the translation reproduces that. -/
def Style.calculate_area (s : Style) (parent_area : Rect) : Rect :=
  match s.display with
  | Display.tiled =>
      let x := w16 (parent_area.x + s.margin.left)
      let y := w16 (parent_area.y + s.margin.top)
      let w := parent_area.width - w16 (s.margin.left + s.margin.right)
      let h := parent_area.height - w16 (s.margin.top + s.margin.bottom)
      let w := match s.width with
        | Dimension.fixed fw => min fw fw
        | Dimension.percent p => w16 (w * p / 100)
        | Dimension.auto => w
      let h := match s.height with
        | Dimension.fixed fh => min fh fh
        | Dimension.percent p => w16 (h * p / 100)
        | Dimension.auto => h
      Rect.new x y w h
  | Display.floating fx fy =>
      let w := match s.width with
        | Dimension.fixed fw => fw
        | _ => parent_area.width / 2
      let h := match s.height with
        | Dimension.fixed fh => fh
        | _ => parent_area.height / 2
      Rect.new fx fy w h

/-- Method `Style::calculate_children_areas` from `src/style.rs` lines
202–243.  `n_children` is the Rust `usize` child count; the
`n_children as u16` casts are the `w16` applications.  All additions,
subtractions and multiplications are `u16` release-mode (wrapping)
operations; `saturating_sub` is Nat truncated subtraction. -/
def Style.calculate_children_areas (s : Style) (parent_area : Rect)
    (n_children : Nat) : List Rect :=
  if n_children = 0 then []
  else
    let content_x := w16 (parent_area.x + s.padding.left)
    let content_y := w16 (parent_area.y + s.padding.top)
    let content_w := parent_area.width - w16 (s.padding.left + s.padding.right)
    let content_h := parent_area.height - w16 (s.padding.top + s.padding.bottom)
    let total_gap := w16 (s.gap * w16 (w16 n_children + 65535))
    match s.flex_direction with
    | FlexDirection.row =>
        let available_width := content_w - total_gap
        let child_width := available_width / w16 n_children
        (List.range n_children).map fun i =>
          Rect.new (w16 (content_x + w16 (w16 i * w16 (child_width + s.gap))))
            content_y child_width content_h
    | FlexDirection.column =>
        let available_height := content_h - total_gap
        let child_height := available_height / w16 n_children
        (List.range n_children).map fun i =>
          Rect.new content_x
            (w16 (content_y + w16 (w16 i * w16 (child_height + s.gap))))
            content_w child_height

/-- Size of the padded content area of `parent_area` under style `s`
along the flex axis (width for `Row`, height for `Column`), exactly as
`calculate_children_areas` computes it before distributing space. -/
def Style.flexContent (s : Style) (parent_area : Rect) : Nat :=
  match s.flex_direction with
  | FlexDirection.row => parent_area.width - w16 (s.padding.left + s.padding.right)
  | FlexDirection.column => parent_area.height - w16 (s.padding.top + s.padding.bottom)

/-- Size of one rectangle along the flex axis of style `s`. -/
def Rect.flexSize (s : Style) (r : Rect) : Nat :=
  match s.flex_direction with
  | FlexDirection.row => r.width
  | FlexDirection.column => r.height

/-- Combined span of a child-area list along the flex axis, in the sense
of the specification: the sum of the child sizes plus one gap between
consecutive children. -/
def Style.spanWithGaps (s : Style) (rs : List Rect) : Nat :=
  (rs.map (Rect.flexSize s)).sum + s.gap * (rs.length - 1)

/-- Semantic event types, from `enum EventType` in `src/event.rs`. -/
inductive EventType where
  | click : EventType
  | doubleClick : EventType
  | rightClick : EventType
  | scrollUp : EventType
  | scrollDown : EventType
  | hover : EventType
  deriving Repr, DecidableEq

/-- Widget capability, from `trait Widget` in `src/widget/mod.rs`.  Only
the `content_size` method participates in the tree algorithms specified
here (`render` draws through the terminal backend and
`node_style_hint` is consumed by the handle layer, both outside the
embedded core). -/
structure Widget where
  content_size : Rect → Nat × Nat

/-- Default `content_size` of the `Widget` trait: occupy the entire
area. -/
def Widget.fillArea : Widget := ⟨fun a => (a.width, a.height)⟩

/-- Context passed to event listeners, from `struct EventContext` in
`src/event.rs`.  `key_code` is modelled by a `Nat` code. -/
structure EventContext where
  event_type : EventType
  target_id : String
  mouse_x : Option Nat
  mouse_y : Option Nat
  scroll_delta : Option Int
  key_code : Option Nat
  deriving Repr, DecidableEq

/-- Per-node listener registry, modelling
`HashMap<EventType, HashMap<ListenerId, EventListener>>`: the outer
association list keys event types, the inner list holds the registered
listener ids (the callback payloads themselves carry no information the
tree algorithms inspect, so a listener is represented by its id). -/
abbrev ListenerTable : Type := List (EventType × List Nat)

/-- Empty listener table (`HashMap::new()`). -/
def ListenerTable.empty : ListenerTable := []

/-- Registration step
`listeners.entry(event_type).or_insert_with(HashMap::new).insert(listener_id, listener)`:
inserting an already-present id replaces its callback, leaving the id
set unchanged; a fresh id is added to the inner map. -/
def ListenerTable.insert : ListenerTable → EventType → Nat → ListenerTable
  | [], et, lid => [(et, [lid])]
  | (k, ids) :: rest, et, lid =>
      if k = et then
        (k, if lid ∈ ids then ids else ids ++ [lid]) :: rest
      else
        (k, ids) :: ListenerTable.insert rest et lid

/-- Removal step of `Node::remove_event_listener` on one node:
`for listeners in self.listeners.values_mut() { listeners.remove(&listener_id); }`
(the outer entries persist, possibly left empty). -/
def ListenerTable.removeId (tbl : ListenerTable) (lid : Nat) : ListenerTable :=
  tbl.map fun p => (p.1, p.2.filter fun l => l ≠ lid)

/-- Lookup `self.listeners.get(&event_type)`, defaulting to no
listeners. -/
def ListenerTable.get (tbl : ListenerTable) (et : EventType) : List Nat :=
  match tbl.find? (fun p => p.1 = et) with
  | some p => p.2
  | none => []

/-- Tree node, from `struct Node` in `src/internal/mod.rs` lines 20–29:
`id`, `style`, `area` (allocated by layout), `content_area` (for hit
testing), optional `widget`, ordered `children`, and the per-node
`listeners` table. -/
inductive Node where
  | mk (id : String) (style : Style) (area : Rect) (content_area : Rect)
      (widget : Option Widget) (children : List Node)
      (listeners : ListenerTable) : Node

/-- Field accessor for `Node.id`. -/
def Node.id : Node → String
  | Node.mk i _ _ _ _ _ _ => i

/-- Field accessor for `Node.style`. -/
def Node.style : Node → Style
  | Node.mk _ s _ _ _ _ _ => s

/-- Field accessor for `Node.area`. -/
def Node.area : Node → Rect
  | Node.mk _ _ a _ _ _ _ => a

/-- Field accessor for `Node.content_area`. -/
def Node.content_area : Node → Rect
  | Node.mk _ _ _ ca _ _ _ => ca

/-- Field accessor for `Node.widget`. -/
def Node.widget : Node → Option Widget
  | Node.mk _ _ _ _ w _ _ => w

/-- Field accessor for `Node.children`. -/
def Node.children : Node → List Node
  | Node.mk _ _ _ _ _ cs _ => cs

/-- Field accessor for `Node.listeners`. -/
def Node.listeners : Node → ListenerTable
  | Node.mk _ _ _ _ _ _ ls => ls

@[simp] theorem Node.id_mk (i s a ca w cs ls) :
    (Node.mk i s a ca w cs ls).id = i := rfl

@[simp] theorem Node.style_mk (i s a ca w cs ls) :
    (Node.mk i s a ca w cs ls).style = s := rfl

@[simp] theorem Node.area_mk (i s a ca w cs ls) :
    (Node.mk i s a ca w cs ls).area = a := rfl

@[simp] theorem Node.content_area_mk (i s a ca w cs ls) :
    (Node.mk i s a ca w cs ls).content_area = ca := rfl

@[simp] theorem Node.widget_mk (i s a ca w cs ls) :
    (Node.mk i s a ca w cs ls).widget = w := rfl

@[simp] theorem Node.children_mk (i s a ca w cs ls) :
    (Node.mk i s a ca w cs ls).children = cs := rfl

@[simp] theorem Node.listeners_mk (i s a ca w cs ls) :
    (Node.mk i s a ca w cs ls).listeners = ls := rfl

/-- Constructor `Node::new(id)` from `src/internal/mod.rs`: default
column style, default areas, no widget, no children, no listeners. -/
def Node.new (id : String) : Node :=
  Node.mk id (Style.new.column) Rect.default Rect.default none [] ListenerTable.empty

mutual

/-- Method `Node::layout` from `src/internal/mod.rs` lines 45–64: sets
`area` to the given `parent_area`, computes `content_area` from the
widget's `content_size` (or equal to `area` when there is no widget),
then recursively lays out the children on the areas produced by
`calculate_children_areas`. -/
def Node.layout : Node → Rect → Node
  | Node.mk i s _ _ w cs ls, parent_area =>
      let ca :=
        match w with
        | some wd =>
            let sz := wd.content_size parent_area
            Rect.new parent_area.x parent_area.y sz.1 sz.2
        | none => parent_area
      Node.mk i s parent_area ca w
        (Node.layoutZip cs (s.calculate_children_areas parent_area cs.length)) ls

/-- The `children.iter_mut().zip(child_areas)` loop of `Node::layout`:
children beyond the shorter sequence are left untouched. -/
def Node.layoutZip : List Node → List Rect → List Node
  | [], _ => []
  | c :: cs, [] => c :: cs
  | c :: cs, r :: rs => Node.layout c r :: Node.layoutZip cs rs

end

mutual

/-- Method `Node::find_widget_at` from `src/internal/mod.rs` lines
80–100: points outside `area` yield no match; otherwise the children
are tried in order, and failing those, a node with a widget matches
itself when the point is inside `content_area` while a widget-less node
matches itself unconditionally. -/
def Node.find_widget_at : Node → Nat → Nat → Option String
  | Node.mk i _ a ca w cs _, x, y =>
      if a.containsPt x y then
        match Node.findWidgetAtList cs x y with
        | some r => some r
        | none =>
            match w with
            | some _ => if ca.containsPt x y then some i else none
            | none => some i
      else none

/-- The child loop of `Node::find_widget_at`: first child answer wins. -/
def Node.findWidgetAtList : List Node → Nat → Nat → Option String
  | [], _, _ => none
  | c :: cs, x, y =>
      match c.find_widget_at x y with
      | some r => some r
      | none => Node.findWidgetAtList cs x y

end

mutual

/-- Whether the subtree rooted at this node contains a node with the
given id — the success condition of `Node::find_child_mut`
(`src/internal/mod.rs` lines 111–121). -/
def Node.containsId : Node → String → Bool
  | Node.mk i _ _ _ _ cs _, t => i == t || Node.containsIdList cs t

/-- Child loop of the id search. -/
def Node.containsIdList : List Node → String → Bool
  | [], _ => false
  | c :: cs, t => c.containsId t || Node.containsIdList cs t

end

mutual

/-- Read-only rendering of `Node::find_child_mut`: the first node in
depth-first (self before children, children in order) order whose id
matches. -/
def Node.find_child : Node → String → Option Node
  | Node.mk i s a ca w cs ls, t =>
      if i == t then some (Node.mk i s a ca w cs ls)
      else Node.findChildList cs t

/-- Child loop of `Node.find_child`. -/
def Node.findChildList : List Node → String → Option Node
  | [], _ => none
  | c :: cs, t =>
      match c.find_child t with
      | some n => some n
      | none => Node.findChildList cs t

end

mutual

/-- Pure rendering of mutation through `Node::find_child_mut`: apply
`f` to the first node in depth-first order whose id matches; when the
id is absent the tree is returned unchanged (the silent-no-op path of
every mutation helper in `src/internal/mod.rs`). -/
def Node.modifyFirst : Node → String → (Node → Node) → Node
  | Node.mk i s a ca w cs ls, t, f =>
      if i == t then f (Node.mk i s a ca w cs ls)
      else Node.mk i s a ca w (Node.modifyFirstList cs t f) ls

/-- Child loop of `Node.modifyFirst`: descend into the first child whose
subtree contains the id, exactly where `find_child_mut` would have
returned a mutable borrow. -/
def Node.modifyFirstList : List Node → String → (Node → Node) → List Node
  | [], _, _ => []
  | c :: cs, t, f =>
      if c.containsId t then c.modifyFirst t f :: cs
      else c :: Node.modifyFirstList cs t f

end

/-- Append a child node (the `parent.children.push(...)` step). -/
def Node.pushChild (n : Node) (c : Node) : Node :=
  match n with
  | Node.mk i s a ca w cs ls => Node.mk i s a ca w (cs ++ [c]) ls

/-- Method `Node::add_widget_box` from `src/internal/mod.rs` lines
123–141: locate `parent_id` via `find_child_mut` and push a fresh leaf
node carrying the widget; silently do nothing when the parent is
absent. -/
def Node.add_widget_box (root : Node) (parent_id : String) (id : String)
    (widget : Widget) (style : Style) : Node :=
  root.modifyFirst parent_id fun p =>
    p.pushChild (Node.mk id style Rect.default Rect.default (some widget) []
      ListenerTable.empty)

/-- Method `Node::add_container` from `src/internal/mod.rs` lines
143–155: like `add_widget_box` but the new child has no widget. -/
def Node.add_container (root : Node) (parent_id : String) (id : String)
    (style : Style) : Node :=
  root.modifyFirst parent_id fun p =>
    p.pushChild (Node.mk id style Rect.default Rect.default none []
      ListenerTable.empty)

/-- Method `Node::remove_child` from `src/internal/mod.rs` lines
157–165: when the id names this very node, clear its widget, children
and listeners in place; otherwise retain exactly the direct children
whose id differs (Rust `Vec::retain`). -/
def Node.remove_child (n : Node) (id : String) : Node :=
  match n with
  | Node.mk i s a ca w cs ls =>
      if i == id then Node.mk i s a ca none [] ListenerTable.empty
      else Node.mk i s a ca w (cs.filter fun c => c.id != id) ls

/-- Method `Node::update_widget_box` from `src/internal/mod.rs` lines
167–171: replace the widget of the first node matching the id; no-op
when absent. -/
def Node.update_widget_box (root : Node) (id : String) (widget : Widget) : Node :=
  root.modifyFirst id fun n =>
    match n with
    | Node.mk i s a ca _ cs ls => Node.mk i s a ca (some widget) cs ls

/-- Method `Node::update_style` from `src/internal/mod.rs` lines
173–177: replace the style of the first node matching the id; no-op
when absent. -/
def Node.update_style (root : Node) (id : String) (style : Style) : Node :=
  root.modifyFirst id fun n =>
    match n with
    | Node.mk i _ a ca w cs ls => Node.mk i style a ca w cs ls

mutual

/-- Method `Node::add_event_listener` from `src/internal/mod.rs` lines
182–205: insert into this node's table when the id matches, otherwise
recurse into every child. -/
def Node.add_event_listener : Node → String → EventType → Nat → Node
  | Node.mk i s a ca w cs ls, target_id, et, lid =>
      if i == target_id then
        Node.mk i s a ca w cs (ls.insert et lid)
      else
        Node.mk i s a ca w (Node.addListenerList cs target_id et lid) ls

/-- Child loop of `Node.add_event_listener`. -/
def Node.addListenerList : List Node → String → EventType → Nat → List Node
  | [], _, _, _ => []
  | c :: cs, target_id, et, lid =>
      c.add_event_listener target_id et lid ::
        Node.addListenerList cs target_id et lid

end

mutual

/-- Method `Node::remove_event_listener` from `src/internal/mod.rs`
lines 208–215: delete the listener id from every table of every node of
the subtree. -/
def Node.remove_event_listener : Node → Nat → Node
  | Node.mk i s a ca w cs ls, lid =>
      Node.mk i s a ca w (Node.removeListenerList cs lid) (ls.removeId lid)

/-- Child loop of `Node.remove_event_listener`. -/
def Node.removeListenerList : List Node → Nat → List Node
  | [], _ => []
  | c :: cs, lid => c.remove_event_listener lid :: Node.removeListenerList cs lid

end

/-- Method `Node::trigger_event` from `src/internal/mod.rs` lines
103–109, rendered as the sequence of listener invocations it performs:
one `(listener_id, context)` pair per listener registered on this node
for the event type. -/
def Node.trigger_event (n : Node) (et : EventType) (ctx : EventContext) :
    List (Nat × EventContext) :=
  (n.listeners.get et).map fun lid => (lid, ctx)

mutual

/-- Depth-first enumeration of every node of a subtree, self first, then
the children in order (the order in which `find_child_mut` visits
them). -/
def Node.subnodes : Node → List Node
  | Node.mk i s a ca w cs ls => Node.mk i s a ca w cs ls :: Node.subnodesList cs

/-- Child loop of `Node.subnodes`. -/
def Node.subnodesList : List Node → List Node
  | [] => []
  | c :: cs => c.subnodes ++ Node.subnodesList cs

end

/-- The tree invariant the specification's data model imposes: node ids
are globally unique among live nodes. -/
def Node.idsUnique (n : Node) : Prop := (n.subnodes.map Node.id).Nodup

instance (n : Node) : Decidable n.idsUnique := by
  unfold Node.idsUnique; infer_instance

/-- Inner listener maps hold each listener id at most once — the
`HashMap` key invariant of the listener registry. -/
def ListenerTable.WF (tbl : ListenerTable) : Prop :=
  ∀ p ∈ tbl, List.Nodup p.2

instance (tbl : ListenerTable) : Decidable tbl.WF := by
  unfold ListenerTable.WF; infer_instance

/-- Mouse buttons, from `crossterm::event::MouseButton`. -/
inductive MouseButton where
  | left : MouseButton
  | right : MouseButton
  | middle : MouseButton
  deriving Repr, DecidableEq

/-- Raw mouse event kinds, from `crossterm::event::MouseEventKind`. -/
inductive MouseEventKind where
  | down (b : MouseButton) : MouseEventKind
  | up (b : MouseButton) : MouseEventKind
  | drag (b : MouseButton) : MouseEventKind
  | moved : MouseEventKind
  | scrollDown : MouseEventKind
  | scrollUp : MouseEventKind
  | scrollLeft : MouseEventKind
  | scrollRight : MouseEventKind
  deriving Repr, DecidableEq

/-- Raw mouse event, from `crossterm::event::MouseEvent` (`kind`,
`column`, `row`, `modifiers`). -/
structure MouseEvent where
  kind : MouseEventKind
  column : Nat
  row : Nat
  modifiers : Nat
  deriving Repr, DecidableEq

/-- The raw-to-semantic mapping at the head of
`RenderLoop::dispatch_mouse_event` (`src/internal/render.rs` lines
111–119): press maps to `Click`, move to `Hover`, the vertical scrolls
to their counterparts, and every other kind returns without an event. -/
def eventTypeOfMouse : MouseEventKind → Option EventType
  | MouseEventKind.down _ => some EventType.click
  | MouseEventKind.up _ => none
  | MouseEventKind.drag _ => none
  | MouseEventKind.moved => some EventType.hover
  | MouseEventKind.scrollUp => some EventType.scrollUp
  | MouseEventKind.scrollDown => some EventType.scrollDown
  | MouseEventKind.scrollLeft => none
  | MouseEventKind.scrollRight => none

/-- The `scroll_delta` field of the dispatched context
(`src/internal/render.rs` lines 133–137). -/
def scrollDeltaOfMouse : MouseEventKind → Option Int
  | MouseEventKind.scrollUp => some 1
  | MouseEventKind.scrollDown => some (-1)
  | _ => none

/-- The `EventContext` built by `RenderLoop::dispatch_mouse_event`
(`src/internal/render.rs` lines 128–139). -/
def mouseCtx (et : EventType) (target_id : String) (m : MouseEvent) :
    EventContext :=
  ⟨et, target_id, some m.column, some m.row, scrollDeltaOfMouse m.kind, none⟩

/-- Method `RenderLoop::dispatch_mouse_event` from
`src/internal/render.rs` lines 109–145, rendered as the sequence of
listener invocations it performs: map the raw kind to a semantic type
(or return), hit-test the tree for a target id (or return), rebuild the
target node by id, and trigger only that node's listeners. -/
def RenderLoop.dispatch_mouse_event (root : Node) (m : MouseEvent) :
    List (Nat × EventContext) :=
  match eventTypeOfMouse m.kind with
  | none => []
  | some et =>
      match root.find_widget_at m.column m.row with
      | none => []
      | some target_id =>
          match root.find_child target_id with
          | some node => node.trigger_event et (mouseCtx et target_id m)
          | none => []

/-- Mutation commands consumed by the render loop, from
`enum UiMessage` in `src/event.rs` lines 42–70.  The variants are
exactly those of the source — `AddWidget`, `AddContainer`,
`RemoveWidget`, `UpdateWidget`, `AddEventListener`,
`RemoveEventListener`; the enum has no style-update variant.  The
listener callback payload is represented by its listener id, as in
`ListenerTable`. -/
inductive UiMessage where
  | addWidget (parent_id id : String) (widget : Widget) (style : Style) : UiMessage
  | addContainer (parent_id id : String) (style : Style) : UiMessage
  | removeWidget (id : String) : UiMessage
  | updateWidget (id : String) (widget : Widget) : UiMessage
  | addEventListener (target_id : String) (event_type : EventType)
      (listener_id : Nat) : UiMessage
  | removeEventListener (listener_id : Nat) : UiMessage

/-- The command-drain match of `RenderLoop::run`
(`src/internal/render.rs` lines 29–68): the effect of one received
`UiMessage` on the tree. -/
def RenderLoop.applyMessage (root : Node) (m : UiMessage) : Node :=
  match m with
  | UiMessage.addWidget parent_id id widget style =>
      root.add_widget_box parent_id id widget style
  | UiMessage.addContainer parent_id id style =>
      root.add_container parent_id id style
  | UiMessage.removeWidget id => root.remove_child id
  | UiMessage.updateWidget id widget => root.update_widget_box id widget
  | UiMessage.addEventListener target_id et lid =>
      root.add_event_listener target_id et lid
  | UiMessage.removeEventListener lid => root.remove_event_listener lid

/-- Style of the first node in depth-first order carrying the given id,
if any. -/
def Node.styleById (root : Node) (id : String) : Option Style :=
  (root.find_child id).map Node.style

/-- Raw terminal events forwarded outward, from `enum Event` in
`src/event.rs` lines 72–78 (`Key`, `Mouse`, `Resize`).  A key event is
represented by its key code. -/
inductive Event where
  | key (code : Nat) : Event
  | mouse (m : MouseEvent) : Event
  | resize (w h : Nat) : Event
  deriving Repr, DecidableEq

/-- State of a bounded `tokio::sync::mpsc` channel as seen by a sender:
its capacity, the messages currently queued, and whether the receiver
side is gone. -/
structure MpscChannel where
  capacity : Nat
  queued : List Event
  closed : Bool
  deriving Repr, DecidableEq

/-- Failure modes of a channel send. -/
inductive SendFailure where
  | chanFull : SendFailure
  | chanClosed : SendFailure
  deriving Repr, DecidableEq

/-- Semantics of `tokio::sync::mpsc::Sender::try_send` (the operation
the handle layer in `src/document.rs` uses): fail with `Closed` when the
receiver is gone, fail with `Full` — dropping the message — when the
buffer is at capacity, otherwise enqueue immediately. -/
def MpscChannel.trySend (c : MpscChannel) (e : Event) :
    MpscChannel × Option SendFailure :=
  if c.closed then (c, some SendFailure.chanClosed)
  else if c.capacity ≤ c.queued.length then (c, some SendFailure.chanFull)
  else ({ c with queued := c.queued ++ [e] }, none)

/-- Semantics of `tokio::sync::mpsc::Sender::send(..).await` (the
operation `RenderLoop::run` uses on the event-output channel): fail only
when the receiver is gone; otherwise the message is always enqueued,
after suspending until capacity is available when the buffer is full.
The third component records whether the sender had to suspend. -/
def MpscChannel.sendAwait (c : MpscChannel) (e : Event) :
    MpscChannel × Option SendFailure × Bool :=
  if c.closed then (c, some SendFailure.chanClosed, false)
  else ({ c with queued := c.queued ++ [e] }, none,
    decide (c.capacity ≤ c.queued.length))

/-- One outward forward of a raw event by `RenderLoop::run`
(`src/internal/render.rs` lines 77, 82, 87):
`let _ = event_tx.send(event).await;` — an awaiting send whose error is
discarded.  Returns the resulting channel state and whether the loop's
step had to suspend waiting for buffer space. -/
def RenderLoop.forwardEvent (c : MpscChannel) (e : Event) :
    MpscChannel × Bool :=
  ((c.sendAwait e).1, (c.sendAwait e).2.2)

/-- Style as the specification's §3 data model describes it, for
comparison with the source `Style`: the spec adds a border field
(`shown` flag; the visual variant does not influence geometry) to the
layout-relevant fields. -/
structure SpecStyle where
  flex_direction : FlexDirection
  gap : Nat
  padding : RectOffset
  border_shown : Bool
  deriving Repr, DecidableEq

/-- Forgetting the border: the only counterpart the source `Style`
offers to a `SpecStyle`, since it has no border field at all. -/
def SpecStyle.toStyle (s : SpecStyle) : Style :=
  ⟨Display.tiled, s.flex_direction, Dimension.auto, Dimension.auto, s.gap,
    s.padding, RectOffset.default⟩

/-- Child-area computation as §4.1 of the specification words it, for
comparison with the source: shrink by one cell per side when the border
is shown, shrink by padding, distribute the gap-adjusted remainder
evenly, tile along the flex axis, and give every rectangle after the
first a 1-cell negative offset and +1 size along that axis when borders
are enabled. -/
def SpecStyle.calculate_children_areas_spec (s : SpecStyle)
    (parent_area : Rect) (n_children : Nat) : List Rect :=
  if n_children = 0 then []
  else
    let pa :=
      if s.border_shown then
        Rect.new (parent_area.x + 1) (parent_area.y + 1)
          (parent_area.width - 2) (parent_area.height - 2)
      else parent_area
    let content_x := pa.x + s.padding.left
    let content_y := pa.y + s.padding.top
    let content_w := pa.width - (s.padding.left + s.padding.right)
    let content_h := pa.height - (s.padding.top + s.padding.bottom)
    let total_gap := s.gap * (n_children - 1)
    match s.flex_direction with
    | FlexDirection.row =>
        let child_width := (content_w - total_gap) / n_children
        (List.range n_children).map fun i =>
          if s.border_shown ∧ i ≠ 0 then
            Rect.new (content_x + i * (child_width + s.gap) - 1) content_y
              (child_width + 1) content_h
          else
            Rect.new (content_x + i * (child_width + s.gap)) content_y
              child_width content_h
    | FlexDirection.column =>
        let child_height := (content_h - total_gap) / n_children
        (List.range n_children).map fun i =>
          if s.border_shown ∧ i ≠ 0 then
            Rect.new content_x (content_y + i * (child_height + s.gap) - 1)
              content_w (child_height + 1)
          else
            Rect.new content_x (content_y + i * (child_height + s.gap))
              content_w child_height

/-- Rectangle inclusion by coordinates, matching `Rect.containsPt`
pointwise: every point of `inner` lies in `outer` (sufficient
condition; used to express nesting of container areas). -/
def subRect (inner outer : Rect) : Bool :=
  outer.x ≤ inner.x && outer.y ≤ inner.y &&
    sat16 inner.x inner.width ≤ sat16 outer.x outer.width &&
    sat16 inner.y inner.height ≤ sat16 outer.y outer.height

/-- A chain of nested widget-less containers: each entry is one node
(id and laid-out area), each carrying the next as its only child. -/
def mkChain : String × Rect → List (String × Rect) → Node
  | (i, r), [] => Node.mk i Style.default r r none [] ListenerTable.empty
  | (i, r), e :: es => Node.mk i Style.default r r none [mkChain e es]
      ListenerTable.empty

/-- Geometric nesting of a chain: every area is included in its
parent's. -/
def chainNested : String × Rect → List (String × Rect) → Bool
  | _, [] => true
  | hd, e :: es => subRect e.2 hd.2 && chainNested e es

/-- The geometric transpose of a rectangle: reflection along the main
diagonal. -/
def Rect.transpose (r : Rect) : Rect := ⟨r.y, r.x, r.height, r.width⟩

/-- A rectangle with its width and height swapped but its position kept
— the exact transformation of the parent area named by the axis-duality
claim. -/
def Rect.swapWH (r : Rect) : Rect := ⟨r.x, r.y, r.height, r.width⟩

/-- Position of a rectangle along the flex axis of a style. -/
def Rect.flexPos (s : Style) (r : Rect) : Nat :=
  match s.flex_direction with
  | FlexDirection.row => r.x
  | FlexDirection.column => r.y

/-- Position of a rectangle across the flex axis of a style. -/
def Rect.crossPos (s : Style) (r : Rect) : Nat :=
  match s.flex_direction with
  | FlexDirection.row => r.y
  | FlexDirection.column => r.x

/-- A style with only its flex direction swapped — the exact style
transformation named by the axis-duality claim. -/
def Style.swapFlex (s : Style) : Style :=
  { s with
    flex_direction :=
      match s.flex_direction with
      | FlexDirection.row => FlexDirection.column
      | FlexDirection.column => FlexDirection.row }

/-- The axis-dual of a style: flex direction swapped and the padding
transposed along with the geometry (left↔top, right↔bottom). -/
def Style.dual (s : Style) : Style :=
  { s with
    flex_direction :=
      match s.flex_direction with
      | FlexDirection.row => FlexDirection.column
      | FlexDirection.column => FlexDirection.row
    padding := ⟨s.padding.left, s.padding.bottom, s.padding.right, s.padding.top⟩ }

mutual

/-- Whether the given listener id is registered anywhere in the
subtree. -/
def Node.hasListenerId : Node → Nat → Bool
  | Node.mk _ _ _ _ _ cs ls, lid =>
      ls.any (fun p => p.2.contains lid) || Node.hasListenerIdList cs lid

/-- Child loop of `Node.hasListenerId`. -/
def Node.hasListenerIdList : List Node → Nat → Bool
  | [], _ => false
  | c :: cs, lid => c.hasListenerId lid || Node.hasListenerIdList cs lid

end

/-- A style distinguishable from the default, for the concrete trees
below. -/
def demoStyle : Style := Style.new.row

/-- A concrete two-node tree: a root container holding one child
container named `a` that carries `demoStyle`. -/
def demoTree : Node :=
  Node.mk "root" Style.default Rect.default Rect.default none
    [Node.mk "a" demoStyle Rect.default Rect.default none [] ListenerTable.empty]
    ListenerTable.empty

/-- A concrete laid-out tree: a root container over a widget leaf `a`
whose content area is strictly smaller than its area, plus a sibling
container `b`. -/
def demoHitTree : Node :=
  Node.mk "root" Style.default (Rect.new 0 0 10 10) (Rect.new 0 0 10 10) none
    [Node.mk "a" Style.default (Rect.new 0 0 5 5) (Rect.new 0 0 2 2)
      (some Widget.fillArea) [] ListenerTable.empty,
     Node.mk "b" Style.default (Rect.new 5 0 5 5) (Rect.new 5 0 5 5) none []
      ListenerTable.empty]
    ListenerTable.empty

/-- A concrete tree with click listeners 7 and 9 registered on a
container `btn` under the root. -/
def demoBtnTree : Node :=
  Node.mk "root" Style.default (Rect.new 0 0 10 10) (Rect.new 0 0 10 10) none
    [Node.mk "btn" Style.default (Rect.new 0 0 5 5) (Rect.new 0 0 5 5) none []
      [(EventType.click, [7, 9])]]
    ListenerTable.empty

/-- A row style whose gap (10) exceeds the parent width used with it. -/
def wideGapRow : Style :=
  { Style.default with flex_direction := FlexDirection.row, gap := 10 }

/-- A row style with asymmetric padding (1 cell on the left only). -/
def leftPadRow : Style :=
  { Style.default with flex_direction := FlexDirection.row, padding := ⟨0, 0, 0, 1⟩ }

/-- A spec-side style with the border shown and no other decoration. -/
def borderedSpecRow : SpecStyle :=
  ⟨FlexDirection.row, 0, RectOffset.default, true⟩

/-- A bounded channel of capacity 1 whose buffer is full and whose
receiver is still alive. -/
def fullOpenChan : MpscChannel := ⟨1, [Event.key 3], false⟩

/-- A floating fixed-size style, used to contrast `calculate_area` with
what the layout pass actually does. -/
def floatingStyle : Style :=
  ⟨Display.floating 3 4, FlexDirection.column, Dimension.fixed 7,
    Dimension.fixed 2, 0, RectOffset.default, ⟨1, 1, 1, 1⟩⟩

/-!
Theorems.  Shared auxiliary lemmas come first, then one theorem per
claim (with its witness or counterexample).
-/

/-- Strong induction on the node tree: to prove a property of every
node it suffices to prove it for a node whose children all satisfy it. -/
theorem Node.strongInd (P : Node → Prop)
    (h : ∀ i s a ca w cs ls, (∀ c ∈ cs, P c) → P (Node.mk i s a ca w cs ls)) :
    ∀ n, P n := by
  intro n
  refine @Node.rec P (fun cs => ∀ c ∈ cs, P c) ?_ ?_ ?_ n
  · intro i s a ca w cs ls ih
    exact h i s a ca w cs ls ih
  · intro c hc
    exact absurd hc (List.not_mem_nil c)
  · intro c cs ihc ihcs x hx
    rcases List.mem_cons.mp hx with h1 | h2
    · exact h1 ▸ ihc
    · exact ihcs x h2

/-- Summing a constant over an index range. -/
theorem sum_map_fixed (n v : Nat) : ((List.range n).map fun _ => v).sum = n * v := by
  induction n with
  | zero => simp
  | succ m ih =>
      rw [List.range_succ, List.map_append, List.sum_append]
      simp [ih, Nat.succ_mul]

/-- Claim C10: for every node and every parent area, the layout pass
sets the node's `area` to exactly the parent area — whatever the node's
style (`Display::Floating`, fixed or percent dimensions, and margin
never influence it, `Style::calculate_area` being unused) — and
`content_area` equals `area` whenever the node has no widget. -/
theorem C10_layout_sets_parent_area (n : Node) (pa : Rect) :
    (n.layout pa).area = pa ∧
      (n.widget = none → (n.layout pa).content_area = pa) := by
  cases n with
  | mk i s a ca w cs ls => cases w <;> simp [Node.layout]

/-- Witness for C10 at a floating fixed-size style: layout still assigns
the parent area (and `calculate_area`, which would have produced a
different rectangle, is visibly not consulted). -/
theorem C10_witness :
    ((Node.mk "f" floatingStyle Rect.default Rect.default none []
        ListenerTable.empty).layout (Rect.new 0 0 80 24)).area = Rect.new 0 0 80 24 ∧
    ((Node.mk "f" floatingStyle Rect.default Rect.default none []
        ListenerTable.empty).layout (Rect.new 0 0 80 24)).content_area = Rect.new 0 0 80 24 ∧
    floatingStyle.calculate_area (Rect.new 0 0 80 24) ≠ Rect.new 0 0 80 24 :=
  ⟨(C10_layout_sets_parent_area _ _).1, (C10_layout_sets_parent_area _ _).2 rfl,
    by decide⟩

/-- Claim C1, amended: for `n = 0` the layout engine returns the empty
sequence, and for `1 ≤ n ≤ 65535` — provided the total gap
`gap·(n−1)` does not exceed the padded content size along the flex axis
(without this proviso the claim fails, see the counterexample: child
sizes saturate at zero but the gaps still widen the span) — it returns
exactly `n` rectangles whose combined span (child sizes plus gaps)
never exceeds the padded content size. -/
theorem C1_flex_span (s : Style) (pa : Rect) (n : Nat) :
    s.calculate_children_areas pa 0 = [] ∧
    (1 ≤ n → n ≤ 65535 → pa.WF → s.gap * (n - 1) ≤ s.flexContent pa →
      (s.calculate_children_areas pa n).length = n ∧
      s.spanWithGaps (s.calculate_children_areas pa n) ≤ s.flexContent pa) := by
  constructor
  · simp [Style.calculate_children_areas]
  · intro h1 h2 hwf hg
    have hn0 : ¬ n = 0 := by omega
    have hwn : w16 n = n := Nat.mod_eq_of_lt (by omega)
    have hC : s.flexContent pa < 65536 := by
      obtain ⟨hx, hy, hw, hh⟩ := hwf
      cases hd : s.flex_direction <;> simp [Style.flexContent, hd] <;> omega
    have hsub : w16 (n + 65535) = n - 1 := by
      unfold w16; omega
    have htg : w16 (s.gap * w16 (n + 65535)) = s.gap * (n - 1) := by
      rw [hsub]
      exact Nat.mod_eq_of_lt (by omega)
    have hlen : (s.calculate_children_areas pa n).length = n := by
      cases hd : s.flex_direction <;>
        simp [Style.calculate_children_areas, hn0, hd]
    refine ⟨hlen, ?_⟩
    have key : (s.calculate_children_areas pa n).map (Rect.flexSize s) =
        (List.range n).map (fun _ => (s.flexContent pa - s.gap * (n - 1)) / n) := by
      cases hd : s.flex_direction <;>
      · simp only [Style.calculate_children_areas, if_neg hn0, hd, List.map_map]
        refine List.map_congr_left ?_
        intro i _
        simp [Rect.flexSize, Rect.new, hd, htg, hwn, Style.flexContent]
    rw [Style.spanWithGaps, key, sum_map_fixed, hlen]
    have hdiv : n * ((s.flexContent pa - s.gap * (n - 1)) / n) ≤
        s.flexContent pa - s.gap * (n - 1) := Nat.mul_div_le _ _
    omega

/-- Witness for C1 on a default column style over an 80×24 screen with
two children. -/
theorem C1_witness :
    Style.default.calculate_children_areas (Rect.new 0 0 80 24) 0 = [] ∧
    (Style.default.calculate_children_areas (Rect.new 0 0 80 24) 2).length = 2 ∧
    Style.default.spanWithGaps
        (Style.default.calculate_children_areas (Rect.new 0 0 80 24) 2) ≤
      Style.default.flexContent (Rect.new 0 0 80 24) :=
  ⟨(C1_flex_span Style.default (Rect.new 0 0 80 24) 2).1,
    ((C1_flex_span Style.default (Rect.new 0 0 80 24) 2).2 (by decide) (by decide)
      (by decide) (by decide)).1,
    ((C1_flex_span Style.default (Rect.new 0 0 80 24) 2).2 (by decide) (by decide)
      (by decide) (by decide)).2⟩

/-- Counterexample to C1 as stated: a row of two children in a 5-wide
parent with gap 10 — the child widths saturate to 0, yet the combined
span (0 + 0 plus one gap of 10) exceeds the padded content width 5. -/
theorem C1_counterexample :
    ¬ (wideGapRow.spanWithGaps
        (wideGapRow.calculate_children_areas (Rect.new 0 0 5 1) 2) ≤
      wideGapRow.flexContent (Rect.new 0 0 5 1)) := by decide

/-- Claim C8, amended: Row and Column layouts are axis-duals once the
padding is transposed along with the geometry — for every style, parent
area and child count, swapping the flex direction, transposing the
parent area and transposing the padding (left↔top, right↔bottom) yields
exactly the geometric transpose of the original rectangles.  (Swapping
the flex direction and the parent's width/height alone, as the claim
states it, fails for asymmetric padding — see the counterexample.) -/
theorem C8_axis_duality (s : Style) (pa : Rect) (n : Nat) :
    (s.dual).calculate_children_areas pa.transpose n =
      (s.calculate_children_areas pa n).map Rect.transpose := by
  by_cases hn : n = 0
  · subst hn; simp [Style.calculate_children_areas]
  · cases hd : s.flex_direction <;>
    · simp only [Style.calculate_children_areas, if_neg hn, Style.dual, hd,
        Rect.transpose, List.map_map]
      rfl

/-- Counterexample to C8 as stated: a row style with 1 cell of padding
on the left only, a 4×2 parent.  Swapping only the flex direction and
the parent's width/height puts the padding on the child's left again,
whereas the geometric transpose of the original layout demands it on
the top — the results differ. -/
theorem C8_counterexample :
    ¬ ((leftPadRow.swapFlex).calculate_children_areas
          (Rect.new 0 0 4 2).swapWH 1 =
        (leftPadRow.calculate_children_areas (Rect.new 0 0 4 2) 1).map
          Rect.transpose) := by decide

/-- Consecutive tile offsets: stepping the tiling formula of
`calculate_children_areas` by one index advances the position by
exactly the child size plus the gap, modulo the `u16` wrap. -/
theorem w16_step (cx cg i : Nat) :
    w16 (cx + w16 (w16 (i + 1) * w16 cg)) =
      w16 (w16 (cx + w16 (w16 i * w16 cg)) + cg) := by
  have h1 : ∀ j : Nat, cx + w16 (w16 j * w16 cg) ≡ cx + j * cg [MOD 65536] := by
    intro j
    exact Nat.ModEq.add_left cx
      ((Nat.mod_modEq _ _).trans ((Nat.mod_modEq j 65536).mul (Nat.mod_modEq cg 65536)))
  have h2 : w16 (cx + w16 (w16 i * w16 cg)) + cg ≡ cx + i * cg + cg [MOD 65536] :=
    Nat.ModEq.add_right cg ((Nat.mod_modEq _ _).trans (h1 i))
  have e : cx + (i + 1) * cg = cx + i * cg + cg := by ring
  show (cx + w16 (w16 (i + 1) * w16 cg)) % 65536 =
    (w16 (cx + w16 (w16 i * w16 cg)) + cg) % 65536
  rw [h1 (i + 1), h2, e]

/-- Claim C5, amended: `Style` carries no border field, and
`calculate_children_areas` applies no border adjustment of any kind —
for every style, parent area and child count, all emitted rectangles
have identical width and height, consecutive rectangles are offset
along the flex axis by exactly the child size plus the gap (modulo the
`u16` wrap), with no 1-cell negative offset or +1 size on later
rectangles, and they share the cross-axis position. -/
theorem C5_no_border_uniform_tiling (s : Style) (pa : Rect) (n : Nat) :
    (∀ r ∈ s.calculate_children_areas pa n,
       ∀ r2 ∈ s.calculate_children_areas pa n,
         r.width = r2.width ∧ r.height = r2.height) ∧
    (∀ i r r2, (s.calculate_children_areas pa n)[i]? = some r →
       (s.calculate_children_areas pa n)[i + 1]? = some r2 →
       r2.flexPos s = w16 (r.flexPos s + (r.flexSize s + s.gap)) ∧
       r2.crossPos s = r.crossPos s) := by
  by_cases hn : n = 0
  · subst hn; simp [Style.calculate_children_areas]
  · cases hd : s.flex_direction <;>
    · constructor
      · intro r hr r2 hr2
        simp only [Style.calculate_children_areas, if_neg hn, hd,
          List.mem_map, List.mem_range] at hr hr2
        obtain ⟨i, _, rfl⟩ := hr
        obtain ⟨j, _, rfl⟩ := hr2
        exact ⟨rfl, rfl⟩
      · intro i r r2 h1 h2
        simp only [Style.calculate_children_areas, if_neg hn, hd,
          List.getElem?_map] at h1 h2
        by_cases hi2 : i + 1 < n
        · have hi : i < n := by omega
          rw [List.getElem?_range hi] at h1
          rw [List.getElem?_range hi2] at h2
          simp only [Option.map_some'] at h1 h2
          injection h1 with h1
          injection h2 with h2
          subst h1; subst h2
          refine ⟨?_, by simp [Rect.crossPos, hd, Rect.new]⟩
          simp only [Rect.flexPos, Rect.flexSize, Rect.new, hd]
          exact w16_step _ _ i
        · rw [List.getElem?_eq_none (by simpa using hi2)] at h2
          simp at h2

/-- Counterexample to C5 as stated: on a 10×4 parent with two children
and no padding, the bordered algorithm the specification describes
(border shrink plus shared-boundary offsets) yields different
rectangles from the source `calculate_children_areas` applied to the
corresponding (necessarily border-less) source style — the source has
no border behaviour to exercise. -/
theorem C5_counterexample :
    borderedSpecRow.calculate_children_areas_spec (Rect.new 0 0 10 4) 2 ≠
      (borderedSpecRow.toStyle).calculate_children_areas (Rect.new 0 0 10 4) 2 := by
  decide


/-- First-match erasure coincides with Rust `Vec::retain` filtering when
the direct children's ids are pairwise distinct. -/
theorem filter_ne_eq_eraseP_of_nodup (cs : List Node) (id : String)
    (h : (cs.map Node.id).Nodup) :
    cs.filter (fun c => c.id != id) = cs.eraseP (fun c => c.id == id) := by
  induction cs with
  | nil => rfl
  | cons c rest ih =>
    rw [List.map_cons, List.nodup_cons] at h
    by_cases hc : c.id = id
    · have hb : (c.id == id) = true := by simpa using hc
      have hbn : (c.id != id) = false := by simp [bne, hb]
      rw [List.filter_cons, List.eraseP_cons]
      simp only [hb, hbn, Bool.false_eq_true, if_false, cond_true]
      refine List.filter_eq_self.mpr ?_
      intro a ha
      have hane : a.id ≠ id := by
        intro hxid
        apply h.1
        rw [hc, ← hxid]
        exact List.mem_map_of_mem Node.id ha
      simpa using hane
    · have hb : (c.id == id) = false := by simpa using hc
      have hbn : (c.id != id) = true := by simp [bne, hb]
      rw [List.filter_cons, List.eraseP_cons]
      simp only [hb, hbn, if_true, cond_false]
      rw [ih h.2]

/-- Claim C3: under the data model's id-uniqueness invariant (stated
here for the direct children), `remove_child(id)` on the node whose own
id equals `id` clears that node's widget, children and listeners while
the node itself (id, style, areas) survives; otherwise it removes
exactly the first direct child whose id matches and keeps every other
child — in particular every deeper descendant — untouched.  (On
duplicate-id trees, which the data model rules out, `retain` would
remove every matching direct child, not just the first.) -/
theorem C3_remove_child (n : Node) (id : String)
    (h : (n.children.map Node.id).Nodup) :
    (n.id = id →
      (n.remove_child id).id = n.id ∧ (n.remove_child id).style = n.style ∧
      (n.remove_child id).area = n.area ∧
      (n.remove_child id).content_area = n.content_area ∧
      (n.remove_child id).widget = none ∧ (n.remove_child id).children = [] ∧
      (n.remove_child id).listeners = ListenerTable.empty) ∧
    (n.id ≠ id →
      (n.remove_child id).children = n.children.eraseP (fun c => c.id == id) ∧
      (n.remove_child id).widget = n.widget ∧
      (n.remove_child id).listeners = n.listeners ∧
      (∀ c ∈ n.children, c.id ≠ id → c ∈ (n.remove_child id).children)) := by
  cases n with
  | mk i s a ca w cs ls =>
    simp only [Node.children_mk, Node.id_mk] at h ⊢
    constructor
    · intro hid
      have heq : Node.remove_child (Node.mk i s a ca w cs ls) id =
          Node.mk i s a ca none [] ListenerTable.empty := by
        simp [Node.remove_child, hid]
      rw [heq]
      exact ⟨rfl, rfl, rfl, rfl, rfl, rfl, rfl⟩
    · intro hid
      have hne : (i == id) = false := by simpa using hid
      have heq : Node.remove_child (Node.mk i s a ca w cs ls) id =
          Node.mk i s a ca w (cs.filter fun c => c.id != id) ls := by
        simp [Node.remove_child, hne]
      rw [heq]
      refine ⟨?_, rfl, rfl, ?_⟩
      · simpa using filter_ne_eq_eraseP_of_nodup cs id h
      · intro c hc hcid
        simp only [Node.children_mk, List.mem_filter]
        exact ⟨hc, by simpa using hcid⟩

/-- Witness for C3 on the concrete two-node tree: clearing via the root
id, and removing the child `a`. -/
theorem C3_witness :
    (demoTree.remove_child "root").id = "root" ∧
    (demoTree.remove_child "root").children = [] ∧
    (demoTree.remove_child "root").widget = none ∧
    (demoTree.remove_child "a").children =
      demoTree.children.eraseP (fun c => c.id == "a") :=
  ⟨((C3_remove_child demoTree "root" (by decide)).1 rfl).1,
    ((C3_remove_child demoTree "root" (by decide)).1 rfl).2.2.2.2.2.1,
    ((C3_remove_child demoTree "root" (by decide)).1 rfl).2.2.2.2.1,
    ((C3_remove_child demoTree "a" (by decide)).2 (by decide)).1⟩


/-- A subtree list without an id has no member containing it. -/
theorem Node.containsIdList_eq_false {cs : List Node} {t : String}
    (h : Node.containsIdList cs t = false) :
    ∀ c ∈ cs, c.containsId t = false := by
  induction cs with
  | nil => intro c hc; exact absurd hc (List.not_mem_nil c)
  | cons c cs ih =>
    rw [Node.containsIdList, Bool.or_eq_false_iff] at h
    intro x hx
    rcases List.mem_cons.mp hx with h1 | h2
    · exact h1 ▸ h.1
    · exact ih h.2 x h2

/-- A node whose subtree misses an id does not carry it itself. -/
theorem Node.id_beq_eq_false_of_not_containsId {c : Node} {t : String}
    (h : c.containsId t = false) : (c.id == t) = false := by
  cases c with
  | mk i s a ca w cs ls =>
    rw [Node.containsId, Bool.or_eq_false_iff] at h
    exact h.1

/-- The silent-no-op path: mutating through `find_child_mut` with an id
absent from the subtree leaves the tree untouched. -/
theorem Node.modifyFirst_absent (n : Node) (t : String) (f : Node → Node)
    (h : n.containsId t = false) : n.modifyFirst t f = n := by
  induction n using Node.strongInd with
  | h i s a ca w cs ls ih =>
    rw [Node.containsId, Bool.or_eq_false_iff] at h
    rw [Node.modifyFirst, if_neg (by simpa using h.1)]
    congr 1
    have hcs := Node.containsIdList_eq_false h.2
    clear h
    induction cs with
    | nil => rfl
    | cons c rest ihl =>
      rw [Node.modifyFirstList, if_neg ?_]
      · rw [ihl (fun x hx => ih x (List.mem_cons_of_mem c hx))
            (fun x hx => hcs x (List.mem_cons_of_mem c hx))]
      · simp [hcs c (List.mem_cons_self c rest)]

/-- A subtree list without a listener id has no member carrying it. -/
theorem Node.hasListenerIdList_eq_false {cs : List Node} {lid : Nat}
    (h : Node.hasListenerIdList cs lid = false) :
    ∀ c ∈ cs, c.hasListenerId lid = false := by
  induction cs with
  | nil => intro c hc; exact absurd hc (List.not_mem_nil c)
  | cons c cs ih =>
    rw [Node.hasListenerIdList, Bool.or_eq_false_iff] at h
    intro x hx
    rcases List.mem_cons.mp hx with h1 | h2
    · exact h1 ▸ h.1
    · exact ih h.2 x h2

/-- Removing an unregistered listener id leaves a table unchanged. -/
theorem ListenerTable.removeId_absent (tbl : ListenerTable) (lid : Nat)
    (h : tbl.any (fun p => p.2.contains lid) = false) :
    tbl.removeId lid = tbl := by
  rw [List.any_eq_false] at h
  induction tbl with
  | nil => rfl
  | cons p rest ih =>
    unfold ListenerTable.removeId
    rw [List.map_cons]
    have hp : ¬ (p.2.contains lid = true) := h p (List.mem_cons_self p rest)
    have hmem : lid ∉ p.2 := by simpa using hp
    have hfil : p.2.filter (fun l => l ≠ lid) = p.2 := by
      refine List.filter_eq_self.mpr ?_
      intro a ha
      simp only [ne_eq, decide_not, Bool.not_eq_true', decide_eq_false_iff_not]
      intro he
      exact hmem (he ▸ ha)
    have htail : rest.map (fun p => (p.1, p.2.filter fun l => l ≠ lid)) = rest := by
      have := ih (fun x hx => h x (List.mem_cons_of_mem p hx))
      simpa [ListenerTable.removeId] using this
    rw [hfil, htail]

/-- Removing an unregistered listener id leaves the whole tree
unchanged. -/
theorem Node.remove_event_listener_absent (n : Node) (lid : Nat)
    (h : n.hasListenerId lid = false) : n.remove_event_listener lid = n := by
  induction n using Node.strongInd with
  | h i s a ca w cs ls ih =>
    rw [Node.hasListenerId, Bool.or_eq_false_iff] at h
    rw [Node.remove_event_listener]
    have hls := ListenerTable.removeId_absent ls lid h.1
    rw [hls]
    have hcs := Node.hasListenerIdList_eq_false h.2
    clear h
    congr 1
    induction cs with
    | nil => rfl
    | cons c rest ihl =>
      rw [Node.removeListenerList]
      rw [ih c (List.mem_cons_self c rest) (hcs c (List.mem_cons_self c rest))]
      rw [ihl (fun x hx => ih x (List.mem_cons_of_mem c hx))
        (fun x hx => hcs x (List.mem_cons_of_mem c hx))]

/-- Claim C4: `add_widget` and `add_container` naming a parent id that
occurs nowhere in the tree leave the tree completely unchanged (and the
operations are total — no error value exists to raise); the same holds
for `update_widget`, for `remove_child`, and for
`remove_event_listener` naming a missing id. -/
theorem C4_missing_id_noop (root : Node) (pid cid id : String) (w : Widget)
    (st : Style) (lid : Nat) :
    (root.containsId pid = false →
      root.add_widget_box pid cid w st = root ∧
      root.add_container pid cid st = root) ∧
    (root.containsId id = false →
      root.update_widget_box id w = root ∧
      root.remove_child id = root) ∧
    (root.hasListenerId lid = false →
      root.remove_event_listener lid = root) := by
  refine ⟨?_, ?_, ?_⟩
  · intro h
    exact ⟨Node.modifyFirst_absent _ _ _ h, Node.modifyFirst_absent _ _ _ h⟩
  · intro h
    refine ⟨Node.modifyFirst_absent _ _ _ h, ?_⟩
    cases root with
    | mk i s a ca w0 cs ls =>
      simp only [Node.containsId, Bool.or_eq_false_iff] at h
      have hcs := Node.containsIdList_eq_false h.2
      have hne : (i == id) = false := h.1
      have hfil : cs.filter (fun c => c.id != id) = cs := by
        refine List.filter_eq_self.mpr ?_
        intro c hc
        have := Node.id_beq_eq_false_of_not_containsId (hcs c hc)
        simpa [bne] using this
      simp [Node.remove_child, hne, hfil]
  · intro h
    exact Node.remove_event_listener_absent root lid h

/-- Witness for C4 on the concrete two-node tree with the absent ids
`ghost` and listener id 42. -/
theorem C4_witness :
    demoTree.add_widget_box "ghost" "x" Widget.fillArea Style.default = demoTree ∧
    demoTree.add_container "ghost" "x" Style.default = demoTree ∧
    demoTree.update_widget_box "ghost" Widget.fillArea = demoTree ∧
    demoTree.remove_child "ghost" = demoTree ∧
    demoTree.remove_event_listener 42 = demoTree :=
  ⟨((C4_missing_id_noop demoTree "ghost" "x" "ghost" Widget.fillArea
      Style.default 42).1 (by decide)).1,
   ((C4_missing_id_noop demoTree "ghost" "x" "ghost" Widget.fillArea
      Style.default 42).1 (by decide)).2,
   ((C4_missing_id_noop demoTree "ghost" "x" "ghost" Widget.fillArea
      Style.default 42).2.1 (by decide)).1,
   ((C4_missing_id_noop demoTree "ghost" "x" "ghost" Widget.fillArea
      Style.default 42).2.1 (by decide)).2,
   (C4_missing_id_noop demoTree "ghost" "x" "ghost" Widget.fillArea
      Style.default 42).2.2 (by decide)⟩


/-- Claim C7, amended: the loop's outward forwards use an awaiting send
whose error is discarded — when the receiver is gone the event is
dropped and the error swallowed (never retried), but when the buffer of
an open channel is full the event is NOT dropped: it is enqueued after
the step suspends until capacity frees (the render cadence does wait on
the output channel).  A `try_send` (which is what the claimed behaviour
would require, and what the handle layer uses on the command channel)
would instead have failed with `Full` and dropped the event. -/
theorem C7_forward_awaits_capacity (c : MpscChannel) (e : Event) :
    (c.closed = true → RenderLoop.forwardEvent c e = (c, false)) ∧
    (c.closed = false →
      (RenderLoop.forwardEvent c e).1.queued = c.queued ++ [e] ∧
      ((RenderLoop.forwardEvent c e).2 = true ↔ c.capacity ≤ c.queued.length) ∧
      (c.capacity ≤ c.queued.length →
        c.trySend e = (c, some SendFailure.chanFull))) := by
  constructor
  · intro h
    simp [RenderLoop.forwardEvent, MpscChannel.sendAwait, h]
  · intro h
    refine ⟨?_, ?_, ?_⟩
    · simp [RenderLoop.forwardEvent, MpscChannel.sendAwait, h]
    · simp [RenderLoop.forwardEvent, MpscChannel.sendAwait, h]
    · intro hfull
      simp [MpscChannel.trySend, h, hfull]

/-- Witness for C7 on a full open capacity-1 channel and on a closed
channel. -/
theorem C7_witness :
    (RenderLoop.forwardEvent fullOpenChan (Event.key 4)).1.queued =
      [Event.key 3, Event.key 4] ∧
    (RenderLoop.forwardEvent fullOpenChan (Event.key 4)).2 = true ∧
    fullOpenChan.trySend (Event.key 4) =
      (fullOpenChan, some SendFailure.chanFull) ∧
    RenderLoop.forwardEvent ⟨1, [Event.key 3], true⟩ (Event.key 4) =
      (⟨1, [Event.key 3], true⟩, false) :=
  ⟨((C7_forward_awaits_capacity fullOpenChan (Event.key 4)).2 rfl).1,
    (((C7_forward_awaits_capacity fullOpenChan (Event.key 4)).2 rfl).2.1).mpr
      (by decide),
    ((C7_forward_awaits_capacity fullOpenChan (Event.key 4)).2 rfl).2.2
      (by decide),
    (C7_forward_awaits_capacity ⟨1, [Event.key 3], true⟩ (Event.key 4)).1 rfl⟩

/-- Counterexample to C7 as stated: on a full open channel the forwarded
event is neither dropped nor sent without suspending — the queue grows
and the step blocks. -/
theorem C7_counterexample :
    ¬ ((RenderLoop.forwardEvent fullOpenChan (Event.key 4)).1.queued =
          fullOpenChan.queued ∧
        (RenderLoop.forwardEvent fullOpenChan (Event.key 4)).2 = false) := by
  decide


/-- Unfolding of `Node.find_child` through the field accessors. -/
theorem Node.find_child_eq (n : Node) (t : String) :
    n.find_child t =
      if n.id == t then some n else Node.findChildList n.children t := by
  cases n with
  | mk i s a ca w cs ls => rw [Node.find_child]; rfl

/-- The id search succeeds exactly on subtrees containing the id. -/
theorem Node.find_child_isSome (n : Node) (t : String) :
    (n.find_child t).isSome = n.containsId t := by
  induction n using Node.strongInd with
  | h i s a ca w cs ls ih =>
    rw [Node.find_child, Node.containsId]
    cases hb : (i == t) with
    | true => simp
    | false =>
      simp only [Bool.false_eq_true, if_false, Bool.false_or]
      induction cs with
      | nil => simp [Node.findChildList, Node.containsIdList]
      | cons c rest ihl =>
        rw [Node.findChildList, Node.containsIdList]
        cases hc : c.find_child t with
        | some x =>
            have := ih c (List.mem_cons_self c rest)
            rw [hc] at this
            simp [← this]
        | none =>
            have := ih c (List.mem_cons_self c rest)
            rw [hc] at this
            simp only [← this, Option.isSome_none, Bool.false_or]
            exact ihl (fun x hx => ih x (List.mem_cons_of_mem c hx))

/-- Mutation through `find_child_mut` and a subsequent lookup of the
same id agree: both select the first depth-first match, so the lookup
sees exactly the mutated node (for id-preserving mutations). -/
theorem Node.find_child_modifyFirst (n : Node) (t : String) (f : Node → Node)
    (hf : ∀ m, (f m).id = m.id) :
    (n.modifyFirst t f).find_child t = (n.find_child t).map f := by
  induction n using Node.strongInd with
  | h i s a ca w cs ls ih =>
    rw [Node.modifyFirst]
    cases hb : (i == t) with
    | true =>
      simp only [if_true]
      rw [Node.find_child_eq, Node.find_child_eq]
      simp only [Node.id_mk, hb, hf (Node.mk i s a ca w cs ls), if_true]
      rfl
    | false =>
      simp only [Bool.false_eq_true, if_false]
      rw [Node.find_child_eq, Node.find_child_eq]
      simp only [Node.id_mk, hb, Bool.false_eq_true, if_false,
        Node.children_mk]
      induction cs with
      | nil => simp [Node.modifyFirstList, Node.findChildList]
      | cons c rest ihl =>
        rw [Node.modifyFirstList]
        cases hct : c.containsId t with
        | true =>
          simp only [if_true]
          rw [Node.findChildList, Node.findChildList]
          have hcf := ih c (List.mem_cons_self c rest)
          cases hc : c.find_child t with
          | some x =>
            rw [hc] at hcf
            rw [hcf]
            rfl
          | none =>
            have := Node.find_child_isSome c t
            rw [hc, hct] at this
            simp at this
        | false =>
          simp only [Bool.false_eq_true, if_false]
          rw [Node.findChildList, Node.findChildList]
          have hnone : c.find_child t = none := by
            have hi := Node.find_child_isSome c t
            rw [hct] at hi
            cases hcc : c.find_child t with
            | none => rfl
            | some x => rw [hcc] at hi; simp at hi
          rw [hnone]
          exact ihl (fun x hx => ih x (List.mem_cons_of_mem c hx))

/-- Claim C6, amended: the command surface consumed by the loop has NO
`UpdateStyle` variant (see the counterexample — no command can change
an existing node's style); the tree method `Node::update_style` does
exist, unreachable from any command, and it replaces the style of the
(first) node carrying the id in place, as a no-op when the id is not
found. -/
theorem C6_update_style (root : Node) (id : String) (st : Style) :
    (root.containsId id = false → root.update_style id st = root) ∧
    (root.containsId id = true →
      (root.update_style id st).styleById id = some st) := by
  constructor
  · intro h
    exact Node.modifyFirst_absent _ _ _ h
  · intro h
    have hf : ∀ m : Node,
        ((fun n => match n with
          | Node.mk i _ a ca w cs ls => Node.mk i st a ca w cs ls) m).id = m.id := by
      intro m; cases m; rfl
    rw [Node.styleById, Node.update_style, Node.find_child_modifyFirst _ _ _ hf]
    have hsome : (root.find_child id).isSome = true := by
      rw [Node.find_child_isSome, h]
    cases hc : root.find_child id with
    | none => rw [hc] at hsome; simp at hsome
    | some x => cases x; rfl


/-- Witness for C6 on the concrete two-node tree: updating a missing id
is a no-op and updating `a` replaces its style. -/
theorem C6_witness :
    (demoTree.update_style "ghost" Style.default = demoTree) ∧
    (demoTree.update_style "a" Style.default).styleById "a" =
      some Style.default :=
  ⟨(C6_update_style demoTree "ghost" Style.default).1 (by decide),
    (C6_update_style demoTree "a" Style.default).2 (by decide)⟩

/-- Counterexample to C6 as stated: on the concrete tree whose node `a`
carries `demoStyle` (≠ `Style::default()`), every message of the actual
command surface leaves `a`'s style untouched — no `UpdateStyle` command
exists, so no command application can replace a node's style. -/
theorem C6_counterexample :
    (∀ (m : UiMessage) (st : Style),
      (RenderLoop.applyMessage demoTree m).styleById "a" = some st →
      st = demoStyle) ∧ demoStyle ≠ Style.default := by
  refine ⟨?_, by decide⟩
  intro m st h
  cases m with
  | addWidget pid cid wi s =>
    by_cases hp1 : pid = "root"
    · subst hp1
      have hred : (RenderLoop.applyMessage demoTree
          (UiMessage.addWidget "root" cid wi s)).styleById "a" =
            some demoStyle := rfl
      rw [hred] at h
      exact (Option.some.inj h).symm
    · by_cases hp2 : pid = "a"
      · subst hp2
        have hred : (RenderLoop.applyMessage demoTree
            (UiMessage.addWidget "a" cid wi s)).styleById "a" =
              some demoStyle := rfl
        rw [hred] at h
        exact (Option.some.inj h).symm
      · have habs : demoTree.containsId pid = false := by
          simp [demoTree, Node.containsId, Node.containsIdList, beq_iff_eq]
          exact ⟨fun hx => hp1 hx.symm, fun hx => hp2 hx.symm⟩
        have hred : RenderLoop.applyMessage demoTree
            (UiMessage.addWidget pid cid wi s) = demoTree :=
          Node.modifyFirst_absent _ _ _ habs
        rw [hred] at h
        have : demoTree.styleById "a" = some demoStyle := rfl
        rw [this] at h
        exact (Option.some.inj h).symm
  | addContainer pid cid s =>
    by_cases hp1 : pid = "root"
    · subst hp1
      have hred : (RenderLoop.applyMessage demoTree
          (UiMessage.addContainer "root" cid s)).styleById "a" =
            some demoStyle := rfl
      rw [hred] at h
      exact (Option.some.inj h).symm
    · by_cases hp2 : pid = "a"
      · subst hp2
        have hred : (RenderLoop.applyMessage demoTree
            (UiMessage.addContainer "a" cid s)).styleById "a" =
              some demoStyle := rfl
        rw [hred] at h
        exact (Option.some.inj h).symm
      · have habs : demoTree.containsId pid = false := by
          simp [demoTree, Node.containsId, Node.containsIdList, beq_iff_eq]
          exact ⟨fun hx => hp1 hx.symm, fun hx => hp2 hx.symm⟩
        have hred : RenderLoop.applyMessage demoTree
            (UiMessage.addContainer pid cid s) = demoTree :=
          Node.modifyFirst_absent _ _ _ habs
        rw [hred] at h
        have : demoTree.styleById "a" = some demoStyle := rfl
        rw [this] at h
        exact (Option.some.inj h).symm
  | removeWidget rid =>
    by_cases hp1 : rid = "root"
    · subst hp1
      have hred : (RenderLoop.applyMessage demoTree
          (UiMessage.removeWidget "root")).styleById "a" = none := rfl
      rw [hred] at h
      cases h
    · by_cases hp2 : rid = "a"
      · subst hp2
        have hred : (RenderLoop.applyMessage demoTree
            (UiMessage.removeWidget "a")).styleById "a" = none := rfl
        rw [hred] at h
        cases h
      · have hb1 : ("root" == rid) = false := by
          simp [beq_iff_eq]; exact fun hx => hp1 hx.symm
        have hb2 : ("a" != rid) = true := by
          simp [bne, beq_iff_eq]; exact fun hx => hp2 hx.symm
        have hred : RenderLoop.applyMessage demoTree
            (UiMessage.removeWidget rid) = demoTree := by
          simp [RenderLoop.applyMessage, demoTree, Node.remove_child, hb1, hb2]
        rw [hred] at h
        have : demoTree.styleById "a" = some demoStyle := rfl
        rw [this] at h
        exact (Option.some.inj h).symm
  | updateWidget uid wi =>
    by_cases hp1 : uid = "root"
    · subst hp1
      have hred : (RenderLoop.applyMessage demoTree
          (UiMessage.updateWidget "root" wi)).styleById "a" =
            some demoStyle := rfl
      rw [hred] at h
      exact (Option.some.inj h).symm
    · by_cases hp2 : uid = "a"
      · subst hp2
        have hred : (RenderLoop.applyMessage demoTree
            (UiMessage.updateWidget "a" wi)).styleById "a" =
              some demoStyle := rfl
        rw [hred] at h
        exact (Option.some.inj h).symm
      · have habs : demoTree.containsId uid = false := by
          simp [demoTree, Node.containsId, Node.containsIdList, beq_iff_eq]
          exact ⟨fun hx => hp1 hx.symm, fun hx => hp2 hx.symm⟩
        have hred : RenderLoop.applyMessage demoTree
            (UiMessage.updateWidget uid wi) = demoTree :=
          Node.modifyFirst_absent _ _ _ habs
        rw [hred] at h
        have : demoTree.styleById "a" = some demoStyle := rfl
        rw [this] at h
        exact (Option.some.inj h).symm
  | addEventListener tid et lid =>
    by_cases hp1 : tid = "root"
    · subst hp1
      have hred : (RenderLoop.applyMessage demoTree
          (UiMessage.addEventListener "root" et lid)).styleById "a" =
            some demoStyle := rfl
      rw [hred] at h
      exact (Option.some.inj h).symm
    · by_cases hp2 : tid = "a"
      · subst hp2
        have hred : (RenderLoop.applyMessage demoTree
            (UiMessage.addEventListener "a" et lid)).styleById "a" =
              some demoStyle := rfl
        rw [hred] at h
        exact (Option.some.inj h).symm
      · have hb1 : ("root" == tid) = false := by
          simp [beq_iff_eq]; exact fun hx => hp1 hx.symm
        have hb2 : ("a" == tid) = false := by
          simp [beq_iff_eq]; exact fun hx => hp2 hx.symm
        have hred : RenderLoop.applyMessage demoTree
            (UiMessage.addEventListener tid et lid) = demoTree := by
          simp [RenderLoop.applyMessage, demoTree, Node.add_event_listener,
            Node.addListenerList, hb1, hb2]
        rw [hred] at h
        have : demoTree.styleById "a" = some demoStyle := rfl
        rw [this] at h
        exact (Option.some.inj h).symm
  | removeEventListener lid =>
    have hred : (RenderLoop.applyMessage demoTree
        (UiMessage.removeEventListener lid)).styleById "a" =
          some demoStyle := rfl
    rw [hred] at h
    exact (Option.some.inj h).symm



/-- Unfolding of `Node.find_widget_at` through the field accessors. -/
theorem Node.find_widget_at_eq (n : Node) (x y : Nat) :
    n.find_widget_at x y =
      if n.area.containsPt x y then
        match Node.findWidgetAtList n.children x y with
        | some r => some r
        | none =>
            match n.widget with
            | some _ => if n.content_area.containsPt x y then some n.id else none
            | none => some n.id
      else none := by
  cases n with
  | mk i s a ca w cs ls => rfl

/-- Points outside a node's area never match its subtree. -/
theorem Node.find_widget_at_outside (n : Node) (x y : Nat)
    (h : n.area.containsPt x y = false) : n.find_widget_at x y = none := by
  rw [Node.find_widget_at_eq, if_neg (by simp [h])]

/-- The child loop fails when every child fails. -/
theorem Node.findWidgetAtList_none {cs : List Node} {x y : Nat}
    (h : ∀ c ∈ cs, c.find_widget_at x y = none) :
    Node.findWidgetAtList cs x y = none := by
  induction cs with
  | nil => rfl
  | cons c rest ih =>
    rw [Node.findWidgetAtList, h c (List.mem_cons_self c rest)]
    exact ih fun d hd => h d (List.mem_cons_of_mem c hd)

/-- The child loop returns the first child answer. -/
theorem Node.findWidgetAtList_first {cs : List Node} {x y : Nat} {r : String} :
    ∀ (i : Nat) (hi : i < cs.length),
      (∀ j (hj : j < i), (cs.get ⟨j, Nat.lt_trans hj hi⟩).find_widget_at x y = none) →
      (cs.get ⟨i, hi⟩).find_widget_at x y = some r →
      Node.findWidgetAtList cs x y = some r := by
  induction cs with
  | nil => intro i hi; exact absurd hi (by simp)
  | cons c rest ih =>
    intro i hi hprev hit
    cases i with
    | zero =>
      rw [Node.findWidgetAtList]
      simp only [List.get] at hit
      rw [hit]
    | succ k =>
      rw [Node.findWidgetAtList]
      have h0 : c.find_widget_at x y = none := hprev 0 (Nat.succ_pos k)
      rw [h0]
      exact ih k (Nat.lt_of_succ_lt_succ hi)
        (fun j hj => hprev (j + 1) (Nat.succ_lt_succ hj)) hit

/-- Coordinate inclusion implies pointwise inclusion. -/
theorem subRect_containsPt {a b : Rect} {x y : Nat}
    (h : subRect a b = true) (hc : a.containsPt x y = true) :
    b.containsPt x y = true := by
  unfold subRect at h
  unfold Rect.containsPt sat16 at *
  simp only [Bool.and_eq_true, decide_eq_true_eq] at h hc ⊢
  omega

/-- In a nested chain, a point outside one link's area is outside every
deeper link's area. -/
theorem chainNested_all_outside {e : String × Rect}
    {es : List (String × Rect)} {x y : Nat}
    (hn : chainNested e es = true) (ho : e.2.containsPt x y = false) :
    ∀ f ∈ es, f.2.containsPt x y = false := by
  induction es generalizing e with
  | nil => intro f hf; exact absurd hf (List.not_mem_nil f)
  | cons f fs ih =>
    rw [chainNested, Bool.and_eq_true] at hn
    have hf : f.2.containsPt x y = false := by
      cases hb : f.2.containsPt x y with
      | false => rfl
      | true => rw [subRect_containsPt hn.1 hb] at ho; cases ho
    intro g hg
    rcases List.mem_cons.mp hg with h1 | h2
    · exact h1 ▸ hf
    · exact ih hn.2 hf g h2

/-- The root area of a chain is its first entry's area. -/
theorem mkChain_area (hd : String × Rect) (rest : List (String × Rect)) :
    (mkChain hd rest).area = hd.2 := by
  obtain ⟨i, r⟩ := hd
  cases rest <;> rfl

/-- Hit-testing a chain of nested containers returns the last — that
is, the deepest — entry whose area contains the point. -/
theorem mkChain_find (x y : Nat) :
    ∀ (rest : List (String × Rect)) (hd : String × Rect),
      chainNested hd rest = true → hd.2.containsPt x y = true →
      (mkChain hd rest).find_widget_at x y =
        (((hd :: rest).filter fun e => e.2.containsPt x y).getLast?).map
          Prod.fst := by
  intro rest
  induction rest with
  | nil =>
    intro hd _ hc
    obtain ⟨i, r⟩ := hd
    rw [mkChain, Node.find_widget_at_eq]
    simp only [Node.area_mk, Node.children_mk, Node.widget_mk, Node.id_mk]
    rw [if_pos (by simpa using hc)]
    simp [List.filter, hc, Node.findWidgetAtList]
  | cons e es ih =>
    intro hd hn hc
    obtain ⟨i, r⟩ := hd
    rw [chainNested, Bool.and_eq_true] at hn
    rw [mkChain, Node.find_widget_at_eq]
    simp only [Node.area_mk, Node.children_mk, Node.widget_mk, Node.id_mk]
    rw [if_pos (by simpa using hc)]
    cases hce : e.2.containsPt x y with
    | true =>
      have hchild := ih e hn.2 hce
      have hfe : (e :: es).filter (fun p => p.2.containsPt x y) =
          e :: es.filter (fun p => p.2.containsPt x y) := by
        rw [List.filter_cons, if_pos (by simpa using hce)]
      rw [hfe] at hchild
      have hlast : ∃ u, (e :: es.filter
          (fun p => p.2.containsPt x y)).getLast? = some u := by
        cases hq : (e :: es.filter (fun p => p.2.containsPt x y)).getLast? with
        | some u => exact ⟨u, rfl⟩
        | none => rw [List.getLast?_eq_none_iff] at hq; cases hq
      obtain ⟨u, hu⟩ := hlast
      rw [Node.findWidgetAtList, hchild, hu]
      conv_rhs => rw [List.filter_cons, if_pos (by simpa using hc), hfe,
        List.getLast?_cons_cons, hu]
      rfl
    | false =>
      have hout : (mkChain e es).find_widget_at x y = none := by
        refine Node.find_widget_at_outside _ _ _ ?_
        rw [mkChain_area]
        exact hce
      rw [Node.findWidgetAtList, hout, Node.findWidgetAtList]
      have hfe : (e :: es).filter (fun p => p.2.containsPt x y) = [] := by
        rw [List.filter_eq_nil_iff]
        intro p hp
        rcases List.mem_cons.mp hp with h1 | h2
        · subst h1; simp [hce]
        · simp [chainNested_all_outside hn.2 hce p h2]
      rw [List.filter_cons, if_pos (by simpa using hc), hfe]
      rfl



/-- Claim C2: `find_widget_at(x, y)` returns no id when the point lies
outside the node's area (short-circuiting the whole subtree); children
are tried in order before self (the first child answer wins); a widget
leaf matches exactly when the point lies inside both its area and its
`content_area`; a node without a widget matches itself when no child
matches; and consequently, on a chain of nested containers, the deepest
node whose area contains the point is returned. -/
theorem C2_find_widget_at (n : Node) (x y : Nat) :
    (n.area.containsPt x y = false → n.find_widget_at x y = none) ∧
    (∀ w, n.widget = some w → n.children = [] →
      (n.find_widget_at x y = some n.id ↔
        n.area.containsPt x y = true ∧ n.content_area.containsPt x y = true)) ∧
    (n.area.containsPt x y = true →
      ∀ (i : Nat) (hi : i < n.children.length) (r : String),
        (∀ j (hj : j < i),
          (n.children.get ⟨j, Nat.lt_trans hj hi⟩).find_widget_at x y = none) →
        (n.children.get ⟨i, hi⟩).find_widget_at x y = some r →
        n.find_widget_at x y = some r) ∧
    (n.area.containsPt x y = true → n.widget = none →
      (∀ c ∈ n.children, c.find_widget_at x y = none) →
      n.find_widget_at x y = some n.id) ∧
    (∀ (hd : String × Rect) (rest : List (String × Rect)),
      chainNested hd rest = true → hd.2.containsPt x y = true →
      (mkChain hd rest).find_widget_at x y =
        (((hd :: rest).filter fun e => e.2.containsPt x y).getLast?).map
          Prod.fst) := by
  refine ⟨Node.find_widget_at_outside n x y, ?_, ?_, ?_, ?_⟩
  · intro w hw hcs
    rw [Node.find_widget_at_eq, hcs, hw]
    constructor
    · intro h
      by_cases ha : n.area.containsPt x y = true
      · rw [if_pos ha] at h
        refine ⟨ha, ?_⟩
        by_cases hca : n.content_area.containsPt x y = true
        · exact hca
        · rw [Node.findWidgetAtList] at h
          simp only [if_neg hca] at h
          cases h
      · rw [if_neg ha] at h; cases h
    · intro ⟨ha, hca⟩
      rw [if_pos ha, Node.findWidgetAtList]
      simp [hca]
  · intro ha i hi r hprev hit
    rw [Node.find_widget_at_eq, if_pos ha,
      Node.findWidgetAtList_first i hi hprev hit]
  · intro ha hw hall
    rw [Node.find_widget_at_eq, if_pos ha, Node.findWidgetAtList_none hall, hw]
  · intro hd rest hn hc
    exact mkChain_find x y rest hd hn hc

/-- Witness for C2: an outside point, a container self-match on the
concrete laid-out tree, and the deepest match on a concrete three-link
nested chain. -/
theorem C2_witness :
    demoHitTree.find_widget_at 20 20 = none ∧
    demoHitTree.find_widget_at 4 4 = some "root" ∧
    (mkChain ("o", Rect.new 0 0 10 10)
        [("m", Rect.new 1 1 5 5), ("i", Rect.new 2 2 1 1)]).find_widget_at 4 4 =
      some "m" :=
  ⟨(C2_find_widget_at demoHitTree 20 20).1 (by decide),
    (C2_find_widget_at demoHitTree 4 4).2.2.2.1 (by decide) rfl (by decide),
    ((C2_find_widget_at demoHitTree 4 4).2.2.2.2 ("o", Rect.new 0 0 10 10)
        [("m", Rect.new 1 1 5 5), ("i", Rect.new 2 2 1 1)] (by decide)
        (by decide)).trans (by decide)⟩



/-- Membership in a child's subtree lifts to the child-list subtree
enumeration. -/
theorem Node.mem_subnodesList {x : Node} {c : Node} {cs : List Node}
    (hc : c ∈ cs) (hx : x ∈ c.subnodes) : x ∈ Node.subnodesList cs := by
  induction cs with
  | nil => exact absurd hc (List.not_mem_nil c)
  | cons d rest ih =>
    rw [Node.subnodesList]
    rcases List.mem_cons.mp hc with h1 | h2
    · exact List.mem_append_left _ (h1 ▸ hx)
    · exact List.mem_append_right _ (ih h2)

/-- Nodes produced by the child-list id search belong to the list's
subtrees and carry the searched id. -/
theorem Node.findChildList_spec (cs : List Node) (t : String)
    (ih : ∀ c ∈ cs, ∀ m, c.find_child t = some m → m ∈ c.subnodes ∧ m.id = t) :
    ∀ m, Node.findChildList cs t = some m →
      m ∈ Node.subnodesList cs ∧ m.id = t := by
  induction cs with
  | nil => intro m hm; cases hm
  | cons c rest ihl =>
    intro m hm
    rw [Node.findChildList] at hm
    rw [Node.subnodesList]
    cases hc : c.find_child t with
    | some u =>
      rw [hc] at hm
      injection hm with hm
      subst hm
      have hspec := ih c (List.mem_cons_self c rest) u hc
      exact ⟨List.mem_append_left _ hspec.1, hspec.2⟩
    | none =>
      rw [hc] at hm
      have hrec := ihl (fun u hu => ih u (List.mem_cons_of_mem c hu)) m hm
      exact ⟨List.mem_append_right _ hrec.1, hrec.2⟩

/-- The node produced by the id search belongs to the tree and carries
the searched id. -/
theorem Node.find_child_spec (n : Node) (t : String) :
    ∀ m, n.find_child t = some m → m ∈ n.subnodes ∧ m.id = t := by
  induction n using Node.strongInd with
  | h i s a ca w cs ls ih =>
    intro m hm
    rw [Node.find_child_eq] at hm
    rw [Node.subnodes]
    by_cases hb : (i == t) = true
    · rw [if_pos (by simpa using hb)] at hm
      injection hm with hm
      subst hm
      exact ⟨List.mem_cons_self _ _, by simpa using hb⟩
    · rw [if_neg (by simpa using hb), Node.children_mk] at hm
      have hrec := Node.findChildList_spec cs t ih m hm
      exact ⟨List.mem_cons_of_mem _ hrec.1, hrec.2⟩

/-- An id returned by the child hit-test loop occurs in the child
list. -/
theorem Node.findWidgetAtList_containsId (cs : List Node) (x y : Nat)
    (ih : ∀ c ∈ cs, ∀ tid, c.find_widget_at x y = some tid →
      c.containsId tid = true) :
    ∀ tid, Node.findWidgetAtList cs x y = some tid →
      Node.containsIdList cs tid = true := by
  induction cs with
  | nil => intro tid hm; cases hm
  | cons c rest ihl =>
    intro tid hm
    rw [Node.findWidgetAtList] at hm
    rw [Node.containsIdList]
    cases hc : c.find_widget_at x y with
    | some r =>
      rw [hc] at hm
      injection hm with hm
      rw [← hm]
      rw [ih c (List.mem_cons_self c rest) r hc]
      rfl
    | none =>
      rw [hc] at hm
      rw [ihl (fun u hu => ih u (List.mem_cons_of_mem c hu)) tid hm]
      simp

/-- An id returned by the hit test occurs in the tree. -/
theorem Node.find_widget_at_containsId (n : Node) (x y : Nat) :
    ∀ tid, n.find_widget_at x y = some tid → n.containsId tid = true := by
  induction n using Node.strongInd with
  | h i s a ca w cs ls ih =>
    intro tid hm
    rw [Node.find_widget_at_eq] at hm
    simp only [Node.area_mk, Node.children_mk, Node.widget_mk,
      Node.content_area_mk, Node.id_mk] at hm
    rw [Node.containsId]
    by_cases ha : a.containsPt x y = true
    · rw [if_pos ha] at hm
      cases hfl : Node.findWidgetAtList cs x y with
      | some r =>
        rw [hfl] at hm
        injection hm with hm
        rw [← hm]
        rw [Node.findWidgetAtList_containsId cs x y ih r hfl]
        simp
      | none =>
        rw [hfl] at hm
        cases w with
        | some wd =>
          by_cases hca : ca.containsPt x y = true
          · rw [if_pos hca] at hm
            injection hm with hm
            subst hm
            simp
          · rw [if_neg hca] at hm
            cases hm
        | none =>
          injection hm with hm
          subst hm
          simp
    · rw [if_neg ha] at hm
      cases hm

/-- A duplicate-free list containing an element yields exactly one
match when filtered for it. -/
theorem filter_beq_length_one (ids : List Nat) (lid : Nat)
    (hnd : ids.Nodup) (hmem : lid ∈ ids) :
    (ids.filter fun l => l == lid).length = 1 := by
  induction ids with
  | nil => cases hmem
  | cons a rest ih =>
    obtain ⟨hnotin, hnd2⟩ := List.nodup_cons.mp hnd
    by_cases ha : a = lid
    · subst ha
      rw [List.filter_cons, if_pos (by simp)]
      have hz : rest.filter (fun l => l == a) = [] := by
        rw [List.filter_eq_nil_iff]
        intro x hx
        simp only [beq_iff_eq]
        intro he
        exact hnotin (he ▸ hx)
      rw [hz]
      rfl
    · have hmem2 : lid ∈ rest := by
        rcases List.mem_cons.mp hmem with h1 | h2
        · exact absurd h1.symm ha
        · exact h2
      rw [List.filter_cons, if_neg (by simpa using ha)]
      exact ih hnd2 hmem2

/-- Pairing each listener id with a fixed context preserves the
multiplicity of each id. -/
theorem count_pair_map (ids : List Nat) (ctx : EventContext) (lid : Nat)
    (hnd : ids.Nodup) (hmem : lid ∈ ids) :
    ((ids.map fun l => (l, ctx)).filter fun p => p.1 == lid).length = 1 := by
  rw [List.filter_map]
  rw [List.length_map]
  have hp : ((fun p : Nat × EventContext => p.1 == lid) ∘ fun l => (l, ctx)) =
      fun l => l == lid := rfl
  rw [hp]
  exact filter_beq_length_one ids lid hnd hmem

/-- A well-formed listener table serves duplicate-free id lists. -/
theorem ListenerTable.get_nodup {tbl : ListenerTable} (h : tbl.WF)
    (et : EventType) : (tbl.get et).Nodup := by
  unfold ListenerTable.get
  cases hf : tbl.find? (fun p => p.1 = et) with
  | none => simp
  | some p => exact h p (List.mem_of_find?_eq_some hf)

/-- Claim C9: the dispatcher maps press to `Click`, move to `Hover`,
scroll-up/down to `ScrollUp`/`ScrollDown`, and emits nothing for
release, drag and horizontal scrolls; when the mapping or the hit test
produces nothing, no listener fires; otherwise — on a tree satisfying
the data model's id-uniqueness invariant — there is exactly one node
carrying the hit-tested id, and the dispatch invokes precisely that
node's listeners for the event type, each registered listener exactly
once (given the `HashMap` key invariant on its tables), every
invocation carrying the context whose `target_id` is the hit-tested id;
no other node's listeners fire (no bubbling or capturing). -/
theorem C9_mouse_dispatch :
    (∀ b, eventTypeOfMouse (MouseEventKind.down b) = some EventType.click) ∧
    eventTypeOfMouse MouseEventKind.moved = some EventType.hover ∧
    eventTypeOfMouse MouseEventKind.scrollUp = some EventType.scrollUp ∧
    eventTypeOfMouse MouseEventKind.scrollDown = some EventType.scrollDown ∧
    (∀ b, eventTypeOfMouse (MouseEventKind.up b) = none ∧
      eventTypeOfMouse (MouseEventKind.drag b) = none) ∧
    (∀ (root : Node) (m : MouseEvent), eventTypeOfMouse m.kind = none →
      RenderLoop.dispatch_mouse_event root m = []) ∧
    (∀ (root : Node) (m : MouseEvent),
      root.find_widget_at m.column m.row = none →
      RenderLoop.dispatch_mouse_event root m = []) ∧
    (∀ (root : Node) (m : MouseEvent) (et : EventType) (tid : String),
      root.idsUnique →
      eventTypeOfMouse m.kind = some et →
      root.find_widget_at m.column m.row = some tid →
      ∃ n, root.find_child tid = some n ∧ n ∈ root.subnodes ∧ n.id = tid ∧
        (∀ m2 ∈ root.subnodes, m2.id = tid → m2 = n) ∧
        RenderLoop.dispatch_mouse_event root m =
          (n.listeners.get et).map (fun lid => (lid, mouseCtx et tid m)) ∧
        (n.listeners.WF →
          ∀ lid ∈ n.listeners.get et,
            ((RenderLoop.dispatch_mouse_event root m).filter
              fun p => p.1 == lid).length = 1)) := by
  refine ⟨fun b => rfl, rfl, rfl, rfl, fun b => ⟨rfl, rfl⟩, ?_, ?_, ?_⟩
  · intro root m h
    unfold RenderLoop.dispatch_mouse_event
    rw [h]
  · intro root m h
    unfold RenderLoop.dispatch_mouse_event
    cases het : eventTypeOfMouse m.kind with
    | none => rfl
    | some et => rw [h]
  · intro root m et tid hu het hfwa
    have hcont : root.containsId tid = true :=
      Node.find_widget_at_containsId root m.column m.row tid hfwa
    have hsome : (root.find_child tid).isSome = true := by
      rw [Node.find_child_isSome, hcont]
    cases hfc : root.find_child tid with
    | none => rw [hfc] at hsome; cases hsome
    | some n =>
      have hspec := Node.find_child_spec root tid n hfc
      have hdisp : RenderLoop.dispatch_mouse_event root m =
          (n.listeners.get et).map (fun lid => (lid, mouseCtx et tid m)) := by
        simp only [RenderLoop.dispatch_mouse_event, het, hfwa, hfc]
        rfl
      refine ⟨n, rfl, hspec.1, hspec.2, ?_, hdisp, ?_⟩
      · intro m2 hm2 hid2
        exact List.inj_on_of_nodup_map hu hm2 hspec.1 (hid2.trans hspec.2.symm)
      · intro hwf lid hlid
        rw [hdisp]
        exact count_pair_map _ _ _ (ListenerTable.get_nodup hwf et) hlid

/-- Witness for C9: a concrete click on `btn` fires its two listeners
exactly once each with `target_id = "btn"`, and a release is
swallowed. -/
theorem C9_witness :
    RenderLoop.dispatch_mouse_event demoBtnTree
        ⟨MouseEventKind.down MouseButton.left, 1, 1, 0⟩ =
      [(7, mouseCtx EventType.click "btn"
          ⟨MouseEventKind.down MouseButton.left, 1, 1, 0⟩),
       (9, mouseCtx EventType.click "btn"
          ⟨MouseEventKind.down MouseButton.left, 1, 1, 0⟩)] ∧
    RenderLoop.dispatch_mouse_event demoBtnTree
        ⟨MouseEventKind.up MouseButton.left, 1, 1, 0⟩ = [] ∧
    ((RenderLoop.dispatch_mouse_event demoBtnTree
        ⟨MouseEventKind.down MouseButton.left, 1, 1, 0⟩).filter
      fun p => p.1 == 7).length = 1 := by
  obtain ⟨n, hfc, _, _, _, hdisp, hcount⟩ :=
    C9_mouse_dispatch.2.2.2.2.2.2.2 demoBtnTree
      ⟨MouseEventKind.down MouseButton.left, 1, 1, 0⟩ EventType.click "btn"
      (by decide) rfl (by decide)
  have h0 : demoBtnTree.find_child "btn" =
      some (Node.mk "btn" Style.default (Rect.new 0 0 5 5) (Rect.new 0 0 5 5)
        none [] [(EventType.click, [7, 9])]) := rfl
  rw [h0] at hfc
  injection hfc with hfc
  subst hfc
  refine ⟨hdisp.trans rfl, ?_, ?_⟩
  · exact C9_mouse_dispatch.2.2.2.2.2.1 demoBtnTree
      ⟨MouseEventKind.up MouseButton.left, 1, 1, 0⟩ rfl
  · exact hcount (by decide) 7 (by decide)

end Ccui
